import Mathlib

/-!
Verification development for the keystrokes_biometrics repository.

Part 1: the Keystroke Recorder of frontend/src/App.jsx, embedded as a
state-transition system.  React useState values read inside an event
handler are the values of the render that installed the handler
(closure semantics), while useRef cells are mutated in place; each
handler invocation is therefore modelled as one atomic transition on a
record of all the mutable cells, and `now` stands for the value of
Date.now() during that invocation.

Part 2: the verification engine of the FastAPI backend (POST
/api/verify), which is not among the repository files available under
src/, modelled from the spec.
-/

/-- One completed key press/release pair, exactly the object literal
built in handleKeyUp (App.jsx lines 196-203). -/
structure Keystroke where
  key : String
  keyCode : String
  pressTime : Int
  releaseTime : Int
  dwellTime : Int
  flightTime : Int
deriving Repr, DecidableEq

/-- The fields of the DOM KeyboardEvent that the two handlers read
(e.key, e.keyCode, e.repeat, e.metaKey, e.ctrlKey).  The DOM field
`repeat` is called isRepeat here. -/
structure KeyEvent where
  key : String
  keyCode : Nat
  isRepeat : Bool
  metaKey : Bool
  ctrlKey : Bool
deriving Repr, DecidableEq

/-- All mutable cells of the recorder component: the useState flags
isRecording / isCompleted, the refs sessionStartTime and keyDownTimes
(a JS object mapping key string to press timestamp, modelled as an
association list), the keystrokeData list, the visual text, and a
counter of how many times submitData has posted a payload to the
backend (submitData returns without posting when keystrokeData is
empty). -/
structure RecorderState where
  isRecording : Bool
  isCompleted : Bool
  sessionStartTime : Option Int
  keyDownTimes : List (String × Int)
  keystrokeData : List Keystroke
  text : String
  submitCount : Nat
deriving Repr, DecidableEq

/-- The state of a freshly mounted component (all useState initial
values; refs null / empty object). -/
def initialState : RecorderState :=
  { isRecording := false, isCompleted := false, sessionStartTime := none,
    keyDownTimes := [], keystrokeData := [], text := "", submitCount := 0 }

/-- JS object property read: first binding of the key, if any. -/
def lookupStr {β : Type} : List (String × β) → String → Option β
  | [], _ => none
  | p :: rest, k => if p.1 = k then some p.2 else lookupStr rest k

/-- JS `delete obj[key]`. -/
def deleteKey : List (String × Int) → String → List (String × Int)
  | [], _ => []
  | p :: rest, k => if p.1 = k then deleteKey rest k else p :: deleteKey rest k

/-- Overwrite the binding of an existing key in place. -/
def setExisting : List (String × Int) → String → Int → List (String × Int)
  | [], _, _ => []
  | p :: rest, k, v => if p.1 = k then (k, v) :: setExisting rest k v else p :: setExisting rest k v

/-- App.jsx lines 173-175: `if (!keyDownTimes.current[key]) keyDownTimes.current[key] = timestamp`.
The JS guard is a falsiness test, so an absent binding or a binding
whose value is 0 is overwritten; any other binding is kept. -/
def bufferPress (m : List (String × Int)) (k : String) (v : Int) : List (String × Int) :=
  match lookupStr m k with
  | none => m ++ [(k, v)]
  | some old => if old = 0 then setExisting m k v else m

/-- App.jsx lines 75-85 (startSession).  The JS guard
`if (!sessionStartTime.current)` is a falsiness test: null or 0. -/
def startSession (s : RecorderState) (now : Int) : RecorderState :=
  if s.sessionStartTime = none ∨ s.sessionStartTime = some 0 then
    { s with sessionStartTime := some now, isRecording := true,
             keystrokeData := [], text := "", keyDownTimes := [],
             isCompleted := false }
  else s

/-- App.jsx lines 87-93 (stopSession) together with the guard of
submitData (line 96): the flags flip, and a payload is posted iff
keystrokeData is non-empty. -/
def stopSession (s : RecorderState) : RecorderState :=
  if 0 < s.keystrokeData.length then
    { s with isRecording := false, isCompleted := true, submitCount := s.submitCount + 1 }
  else
    { s with isRecording := false, isCompleted := true }

/-- App.jsx lines 59-73 (resetInternalState), restricted to the
recorder cells (the response/error display cells are not modelled). -/
def resetInternalState (s : RecorderState) : RecorderState :=
  { s with isRecording := false, isCompleted := false, sessionStartTime := none,
           keyDownTimes := [], keystrokeData := [], text := "", submitCount := s.submitCount }

/-- Faithful rendering of `e.key.startsWith("F")`: the first character
of the key string is the capital letter F. -/
def startsWithF (k : String) : Bool :=
  match k.data with
  | [] => false
  | c :: _ => decide (c = 'F')

/-- The suppression test of App.jsx lines 156-162. -/
def isSuppressedKey (e : KeyEvent) : Bool :=
  (startsWithF e.key && decide (1 < e.key.length)) || decide (e.key = "Escape") ||
    decide (e.key = "Tab") || e.metaKey || e.ctrlKey

/-- The printable-key test of App.jsx line 167. -/
def isCharKey (e : KeyEvent) : Bool :=
  decide (e.key.length = 1) || decide (e.key = "Space")

/-- App.jsx lines 136-177 (handleKeyDown).  The reads of isRecording,
isCompleted and keystrokeData are closure reads of the pre-invocation
state, so after startSession fires on the first keypress the
`if (!isRecording) return` still sees the old false and returns. -/
def handleKeyDown (s : RecorderState) (e : KeyEvent) (now : Int) : RecorderState :=
  let s1 := if s.isRecording = false ∧ s.isCompleted = false then startSession s now else s
  if s.isRecording = false then s1
  else if e.key = "Enter" then stopSession s1
  else if e.key = "Backspace" then
    (if 0 < s1.keystrokeData.length then { s1 with keystrokeData := s1.keystrokeData.dropLast } else s1)
  else if isSuppressedKey e = true then s1
  else if isCharKey e = true then
    (if e.isRepeat = true then s1
     else { s1 with keyDownTimes := bufferPress s1.keyDownTimes e.key (now - s1.sessionStartTime.getD 0) })
  else s1

/-- The keystroke record built in handleKeyUp lines 196-203, given the
buffered press time, the release timestamp and the previously recorded
list (whose last element supplies the flight reference). -/
def mkKeystroke (e : KeyEvent) (keyDownTime timestamp : Int) (prev : List Keystroke) : Keystroke :=
  { key := if e.key = " " then "Space" else e.key,
    keyCode := toString e.keyCode,
    pressTime := keyDownTime,
    releaseTime := timestamp,
    dwellTime := timestamp - keyDownTime,
    flightTime := match prev.getLast? with
      | some last => keyDownTime - last.releaseTime
      | none => 0 }

/-- App.jsx lines 179-208 (handleKeyUp). -/
def handleKeyUp (s : RecorderState) (e : KeyEvent) (now : Int) : RecorderState :=
  if s.isRecording = false then s
  else if e.key.length ≠ 1 ∧ e.key ≠ "Space" then s
  else
    match lookupStr s.keyDownTimes e.key with
    | none => s
    | some keyDownTime =>
      { s with
        keystrokeData := s.keystrokeData ++
          [mkKeystroke e keyDownTime (now - s.sessionStartTime.getD 0) s.keystrokeData],
        keyDownTimes := deleteKey s.keyDownTimes e.key }

/-- One externally observable stimulus to the recorder: a keydown or
keyup handler invocation carrying the Date.now() value sampled during
it, or a click of the reset button. -/
inductive RecorderInput where
  | keyDown (e : KeyEvent) (now : Int)
  | keyUp (e : KeyEvent) (now : Int)
  | reset
deriving Repr

def recorderStep (s : RecorderState) : RecorderInput → RecorderState
  | .keyDown e now => handleKeyDown s e now
  | .keyUp e now => handleKeyUp s e now
  | .reset => resetInternalState s

def runRecorderFrom : RecorderState → List RecorderInput → RecorderState
  | s, [] => s
  | s, i :: rest => runRecorderFrom (recorderStep s i) rest

/-- The recorder state after a list of stimuli hits a freshly mounted
component. -/
def runRecorder (l : List RecorderInput) : RecorderState :=
  runRecorderFrom initialState l

/-- The Date.now() sample carried by a stimulus, if any. -/
def inputNow : RecorderInput → Option Int
  | .keyDown _ now => some now
  | .keyUp _ now => some now
  | .reset => none

/-- The clock samples of the stimuli are non-decreasing and at least t. -/
def monoFrom : Int → List RecorderInput → Bool
  | _, [] => true
  | t, i :: rest =>
    match inputNow i with
    | some now => decide (t ≤ now) && monoFrom now rest
    | none => monoFrom t rest

/-- The last clock sample of the stimuli (t if there is none). -/
def endClock : Int → List RecorderInput → Int
  | t, [] => t
  | _, (.keyDown _ now) :: rest => endClock now rest
  | _, (.keyUp _ now) :: rest => endClock now rest
  | t, .reset :: rest => endClock t rest

/-- The flight-time chain of a recorded list whose head has been
split off: each event's flightTime is its pressTime minus the release
time of the event just before it. -/
def chainOk : Keystroke → List Keystroke → Bool
  | _, [] => true
  | prev, e :: rest =>
    decide (e.flightTime = e.pressTime - prev.releaseTime) && chainOk e rest

/-- The flight-time discipline over a whole recorded list: the first
event has flightTime 0 and the rest chain on their predecessors. -/
def flightsOk : List Keystroke → Bool
  | [] => true
  | e :: rest => decide (e.flightTime = 0) && chainOk e rest

/-- Adjacent release times are non-decreasing. -/
def releaseSorted : List Keystroke → Bool
  | a :: b :: rest => decide (a.releaseTime ≤ b.releaseTime) && releaseSorted (b :: rest)
  | _ => true

/-- Every event was released no earlier than it was pressed, with the
dwell being exactly the difference. -/
def dwellOk (l : List Keystroke) : Bool :=
  l.all (fun e => decide (e.pressTime ≤ e.releaseTime) && decide (0 ≤ e.dwellTime))

/-!
Part 2: the Verification Engine.  The FastAPI backend that implements
POST /api/verify is not among the repository files available under
src/ (only the README that documents it and the frontend that consumes
its response are), so it is modelled from the spec.
-/

/-- Per-key feature triple of a profile (spec §3, Profile): mean dwell,
mean flight, occurrence count. -/
structure KeyFeature where
  meanDwell : ℚ
  meanFlight : ℚ
  count : Nat
deriving Repr, DecidableEq

/-- A profile is a mapping from logical key to its feature triple
(spec §3), kept as an association list with distinct keys. -/
def KeyProfile : Type := List (String × KeyFeature)

/-- Arithmetic mean of a list of rationals (0 for the empty list). -/
def ratMean (l : List ℚ) : ℚ :=
  if l.length = 0 then 0 else l.sum / (l.length : ℚ)

/-- The keys present in at least one of the given profiles. -/
def profileKeys (ps : List KeyProfile) : List String :=
  ((ps.map (fun p => p.map Prod.fst)).flatten).dedup

/-- Modelled from the spec: step 1 of §4.3 of the missing backend
engine.  The reference profile of an identity merges its training
profiles: each key present in at least one of them gets the average of
its meanDwell and meanFlight over exactly the profiles that contain it. -/
def referenceProfile (ps : List KeyProfile) : KeyProfile :=
  (profileKeys ps).map (fun k =>
    (k, { meanDwell := ratMean ((ps.filterMap (fun p => lookupStr p k)).map (fun f => f.meanDwell)),
          meanFlight := ratMean ((ps.filterMap (fun p => lookupStr p k)).map (fun f => f.meanFlight)),
          count := (ps.filterMap (fun p => lookupStr p k)).length }))

/-- Modelled from the spec: the per-key contribution to the Manhattan
distance of §4.3 step 2 — absolute dwell and flight differences when
the key is in both profiles, the mismatch penalty once per feature
dimension (two dimensions) when it is in only one. -/
def featureDelta (testP refP : KeyProfile) (pen : ℚ) (k : String) : ℚ :=
  match lookupStr testP k, lookupStr refP k with
  | some a, some b => |a.meanDwell - b.meanDwell| + |a.meanFlight - b.meanFlight|
  | some _, none => pen + pen
  | none, some _ => pen + pen
  | none, none => 0

/-- Modelled from the spec: §4.3 step 2, the summed per-key Manhattan
distance over the union of the key sets, normalized by the number of
compared keys. -/
def profileDistance (testP refP : KeyProfile) (pen : ℚ) : ℚ :=
  if (((testP.map Prod.fst) ++ (refP.map Prod.fst)).dedup).length = 0 then 0
  else ((((testP.map Prod.fst) ++ (refP.map Prod.fst)).dedup).map (featureDelta testP refP pen)).sum /
    ((((testP.map Prod.fst) ++ (refP.map Prod.fst)).dedup).length : ℚ)

/-- Modelled from the spec: §4.3 step 3, the monotonically decreasing
distance-to-confidence mapping bounded to the 0..100 range. -/
def confidenceOf (d Dref : ℚ) : ℚ :=
  100 * max 0 (1 - d / Dref)

/-- One row of the comparison matrix returned by POST /api/verify,
with the field names the frontend reads (match.userId, match.score,
match.confidence in App.jsx lines 385-398). -/
structure MatchEntry where
  userId : String
  score : ℚ
  confidence : ℚ
deriving Repr, DecidableEq

/-- An identity together with its stored training profiles (spec §3,
EnrolledUser). -/
structure EnrolledUser where
  identity : String
  trainingProfiles : List KeyProfile

/-- The response shape of POST /api/verify as the frontend consumes it
(verificationMatrix.matrix, verificationMatrix.verified in App.jsx). -/
structure VerificationResult where
  claimedIdentity : String
  matrix : List MatchEntry
  verified : Bool

/-- Ranking order of §4.3 step 4: ascending by distance, ties broken
by identity string order. -/
def matchLe (a b : MatchEntry) : Bool :=
  decide (a.score < b.score) || (decide (a.score = b.score) && decide (a.userId ≤ b.userId))

def insertEntry (x : MatchEntry) : List MatchEntry → List MatchEntry
  | [] => [x]
  | y :: rest => if matchLe x y then x :: y :: rest else y :: insertEntry x rest

def sortEntries : List MatchEntry → List MatchEntry
  | [] => []
  | x :: rest => insertEntry x (sortEntries rest)

/-- Adjacent entries are in ranking order. -/
def rankedAscending : List MatchEntry → Bool
  | a :: b :: rest => matchLe a b && rankedAscending (b :: rest)
  | _ => true

/-- Modelled from the spec: §4.3 steps 1-4 of the missing backend
engine — one entry per enrolled identity with at least one training
profile, scored against the test profile and ranked ascending by
distance. -/
def rankCandidates (testP : KeyProfile) (users : List EnrolledUser) (pen Dref : ℚ) : List MatchEntry :=
  sortEntries ((users.filter (fun u => !u.trainingProfiles.isEmpty)).map (fun u =>
    { userId := u.identity,
      score := profileDistance testP (referenceProfile u.trainingProfiles) pen,
      confidence := confidenceOf (profileDistance testP (referenceProfile u.trainingProfiles) pen) Dref }))

/-- Modelled from the spec: §4.3 step 5 of the missing backend engine —
the full verification response, with verified true iff the top-ranked
entry names the claimed identity and its confidence reaches the
acceptance threshold. -/
def verify (claimed : String) (testP : KeyProfile) (users : List EnrolledUser) (pen Dref thr : ℚ) : VerificationResult :=
  { claimedIdentity := claimed,
    matrix := rankCandidates testP users pen Dref,
    verified := match rankCandidates testP users pen Dref with
      | [] => false
      | top :: _ => decide (top.userId = claimed) && decide (thr ≤ top.confidence) }

/-!
Helper lemmas about the association-list operations.
-/

theorem lookupStr_deleteKey_self (m : List (String × Int)) (k : String) :
    lookupStr (deleteKey m k) k = none := by
  induction m with
  | nil => rfl
  | cons p rest ih =>
    by_cases h : p.1 = k
    · simp [deleteKey, h, ih]
    · simp [deleteKey, lookupStr, h, ih]

theorem lookupStr_deleteKey_of (m : List (String × Int)) (k k' : String) (t : Int)
    (h : lookupStr (deleteKey m k) k' = some t) : lookupStr m k' = some t := by
  induction m with
  | nil => simp [deleteKey, lookupStr] at h
  | cons p rest ih =>
    by_cases hp : p.1 = k
    · by_cases hk : k = k'
      · subst hk
        rw [show deleteKey (p :: rest) k = deleteKey rest k by simp [deleteKey, hp],
          lookupStr_deleteKey_self] at h
        exact absurd h (by simp)
      · have hpk : ¬ p.1 = k' := by rw [hp]; exact hk
        simp only [deleteKey, if_pos hp] at h
        simpa [lookupStr, hpk] using ih h
    · simp only [deleteKey, if_neg hp] at h
      by_cases hk : p.1 = k'
      · simp only [lookupStr, if_pos hk] at h ⊢
        exact h
      · simp only [lookupStr, if_neg hk] at h ⊢
        exact ih h

theorem lookupStr_setExisting_of (m : List (String × Int)) (k : String) (v : Int)
    (k' : String) (t : Int) (h : lookupStr (setExisting m k v) k' = some t) :
    lookupStr m k' = some t ∨ (k' = k ∧ t = v) := by
  induction m with
  | nil => simp [setExisting, lookupStr] at h
  | cons p rest ih =>
    by_cases hp : p.1 = k
    · simp only [setExisting, if_pos hp] at h
      by_cases hk : k = k'
      · simp only [lookupStr, if_pos hk] at h
        exact Or.inr ⟨hk.symm, (Option.some.inj h).symm⟩
      · simp only [lookupStr, if_neg hk] at h
        rcases ih h with h' | h'
        · have hpk : ¬ p.1 = k' := by rw [hp]; exact hk
          exact Or.inl (by simpa [lookupStr, hpk] using h')
        · exact Or.inr h'
    · simp only [setExisting, if_neg hp] at h
      by_cases hk : p.1 = k'
      · simp only [lookupStr, if_pos hk] at h ⊢
        exact Or.inl h
      · simp only [lookupStr, if_neg hk] at h ⊢
        exact ih h

theorem lookupStr_append_single_of (m : List (String × Int)) (k : String) (v : Int)
    (k' : String) (t : Int) (h : lookupStr (m ++ [(k, v)]) k' = some t) :
    lookupStr m k' = some t ∨ (k' = k ∧ t = v) := by
  induction m with
  | nil =>
    simp only [List.nil_append, lookupStr] at h
    by_cases hk : k = k'
    · rw [if_pos hk] at h
      exact Or.inr ⟨hk.symm, (Option.some.inj h).symm⟩
    · rw [if_neg hk] at h
      simp [lookupStr] at h
  | cons p rest ih =>
    by_cases hk : p.1 = k'
    · simp only [List.cons_append, lookupStr, if_pos hk] at h ⊢
      exact Or.inl h
    · simp only [List.cons_append, lookupStr, if_neg hk] at h ⊢
      exact ih h

theorem lookupStr_bufferPress_of (m : List (String × Int)) (k : String) (v : Int)
    (k' : String) (t : Int) (h : lookupStr (bufferPress m k v) k' = some t) :
    lookupStr m k' = some t ∨ (k' = k ∧ t = v) := by
  cases hmk : lookupStr m k with
  | none =>
    simp only [bufferPress, hmk] at h
    exact lookupStr_append_single_of m k v k' t h
  | some old =>
    simp only [bufferPress, hmk] at h
    by_cases h0 : old = 0
    · rw [if_pos h0] at h
      exact lookupStr_setExisting_of m k v k' t h
    · rw [if_neg h0] at h
      exact Or.inl h

/-!
Helper lemmas about the recorded-list predicates.
-/

theorem chainOk_cons (p e : Keystroke) (rest : List Keystroke) :
    chainOk p (e :: rest) =
      (decide (e.flightTime = e.pressTime - p.releaseTime) && chainOk e rest) := rfl

theorem releaseSorted_cons_cons (a b : Keystroke) (rest : List Keystroke) :
    releaseSorted (a :: b :: rest) =
      (decide (a.releaseTime ≤ b.releaseTime) && releaseSorted (b :: rest)) := rfl

theorem chainOk_append : ∀ (p : Keystroke) (l : List Keystroke) (x last : Keystroke),
    chainOk p l = true → (p :: l).getLast? = some last →
    x.flightTime = x.pressTime - last.releaseTime → chainOk p (l ++ [x]) = true
  | p, [], x, last, _, hl, hx => by
    have hp : last = p := by
      simpa using hl.symm
    subst hp
    simp [chainOk, hx]
  | p, q :: rest, x, last, hc, hl, hx => by
    rw [chainOk_cons, Bool.and_eq_true, decide_eq_true_eq] at hc
    have hl' : (q :: rest).getLast? = some last := by
      rw [← List.getLast?_cons_cons (a := p)]
      exact hl
    rw [List.cons_append, chainOk_cons, Bool.and_eq_true, decide_eq_true_eq]
    exact ⟨hc.1, chainOk_append q rest x last hc.2 hl' hx⟩

theorem flightsOk_append (l : List Keystroke) (x : Keystroke) (h : flightsOk l = true)
    (hx : x.flightTime = match l.getLast? with
      | some last => x.pressTime - last.releaseTime
      | none => 0) :
    flightsOk (l ++ [x]) = true := by
  cases l with
  | nil =>
    simp only [List.getLast?_nil] at hx
    simp [flightsOk, chainOk, hx]
  | cons a rest =>
    rw [show flightsOk (a :: rest) = (decide (a.flightTime = 0) && chainOk a rest) from rfl,
      Bool.and_eq_true, decide_eq_true_eq] at h
    obtain ⟨last, hlast⟩ : ∃ last, (a :: rest).getLast? = some last := by
      cases hg : (a :: rest).getLast? with
      | none => exact absurd hg (by simp)
      | some y => exact ⟨y, rfl⟩
    rw [hlast] at hx
    rw [List.cons_append,
      show flightsOk (a :: (rest ++ [x])) = (decide (a.flightTime = 0) && chainOk a (rest ++ [x])) from rfl,
      Bool.and_eq_true, decide_eq_true_eq]
    exact ⟨h.1, chainOk_append a rest x last h.2 hlast hx⟩

theorem chainOk_dropLast : ∀ (p : Keystroke) (l : List Keystroke),
    chainOk p l = true → chainOk p l.dropLast = true
  | _, [], _ => rfl
  | _, [_], _ => rfl
  | p, a :: b :: rest, h => by
    rw [chainOk_cons, Bool.and_eq_true, decide_eq_true_eq] at h
    have ih := chainOk_dropLast a (b :: rest) h.2
    rw [show (a :: b :: rest).dropLast = a :: (b :: rest).dropLast from rfl,
      chainOk_cons, Bool.and_eq_true, decide_eq_true_eq]
    exact ⟨h.1, ih⟩

theorem flightsOk_dropLast (l : List Keystroke) (h : flightsOk l = true) :
    flightsOk l.dropLast = true := by
  cases l with
  | nil => rfl
  | cons a rest =>
    cases rest with
    | nil => rfl
    | cons b rest' =>
      rw [show flightsOk (a :: b :: rest') = (decide (a.flightTime = 0) && chainOk a (b :: rest')) from rfl,
        Bool.and_eq_true, decide_eq_true_eq] at h
      have ih := chainOk_dropLast a (b :: rest') h.2
      rw [show ((a :: b :: rest').dropLast) = a :: (b :: rest').dropLast from rfl,
        show flightsOk (a :: (b :: rest').dropLast) = (decide (a.flightTime = 0) && chainOk a ((b :: rest').dropLast)) from rfl,
        Bool.and_eq_true, decide_eq_true_eq]
      exact ⟨h.1, ih⟩

theorem releaseSorted_append : ∀ (l : List Keystroke) (x : Keystroke),
    releaseSorted l = true → (∀ e ∈ l, e.releaseTime ≤ x.releaseTime) →
    releaseSorted (l ++ [x]) = true
  | [], x, _, _ => rfl
  | [a], x, _, hx => by
    rw [show ([a] ++ [x] : List Keystroke) = [a, x] from rfl, releaseSorted_cons_cons,
      Bool.and_eq_true, decide_eq_true_eq]
    exact ⟨hx a (by simp), rfl⟩
  | a :: b :: rest, x, hl, hx => by
    rw [releaseSorted_cons_cons, Bool.and_eq_true, decide_eq_true_eq] at hl
    have ih := releaseSorted_append (b :: rest) x hl.2 (fun e he => hx e (by simp [he]))
    rw [show ((a :: b :: rest) ++ [x]) = a :: b :: (rest ++ [x]) from rfl,
      releaseSorted_cons_cons, Bool.and_eq_true, decide_eq_true_eq]
    exact ⟨hl.1, by rw [show (b :: (rest ++ [x])) = ((b :: rest) ++ [x]) from rfl]; exact ih⟩

theorem releaseSorted_dropLast : ∀ (l : List Keystroke),
    releaseSorted l = true → releaseSorted l.dropLast = true
  | [], _ => rfl
  | [_], _ => rfl
  | [_, _], _ => rfl
  | a :: b :: c :: rest, h => by
    rw [releaseSorted_cons_cons, Bool.and_eq_true, decide_eq_true_eq] at h
    have ih := releaseSorted_dropLast (b :: c :: rest) h.2
    rw [show (a :: b :: c :: rest).dropLast = a :: b :: (c :: rest).dropLast from rfl,
      releaseSorted_cons_cons, Bool.and_eq_true, decide_eq_true_eq]
    exact ⟨h.1, by rw [show (b :: (c :: rest).dropLast) = (b :: c :: rest).dropLast from rfl]; exact ih⟩

/-!
Characterization lemmas: one equation per control-flow branch of the
two handlers.
-/

theorem handleKeyDown_completed (s : RecorderState) (e : KeyEvent) (now : Int)
    (hr : s.isRecording = false) (hc : s.isCompleted = true) :
    handleKeyDown s e now = s := by
  simp [handleKeyDown, hr, hc]

theorem handleKeyDown_idle (s : RecorderState) (e : KeyEvent) (now : Int)
    (hr : s.isRecording = false) (hc : s.isCompleted = false) :
    handleKeyDown s e now = startSession s now := by
  simp [handleKeyDown, hr, hc]

theorem handleKeyDown_rec_enter (s : RecorderState) (e : KeyEvent) (now : Int)
    (hr : s.isRecording = true) (he : e.key = "Enter") :
    handleKeyDown s e now = stopSession s := by
  simp [handleKeyDown, hr, he]

theorem handleKeyDown_rec_backspace (s : RecorderState) (e : KeyEvent) (now : Int)
    (hr : s.isRecording = true) (he : e.key = "Backspace") :
    handleKeyDown s e now = { s with keystrokeData := s.keystrokeData.dropLast } := by
  by_cases hlen : 0 < s.keystrokeData.length
  · simp [handleKeyDown, hr, he, hlen]
  · have hnil : s.keystrokeData = [] := by
      cases h : s.keystrokeData with
      | nil => rfl
      | cons a rest => rw [h] at hlen; exact absurd (by simp) hlen
    have h1 : handleKeyDown s e now = s := by
      simp [handleKeyDown, hr, he, hlen]
    have h2 : { s with keystrokeData := s.keystrokeData.dropLast } = s := by
      rw [hnil, List.dropLast_nil, ← hnil]
    rw [h1, h2]

theorem handleKeyDown_rec_suppressed (s : RecorderState) (e : KeyEvent) (now : Int)
    (hr : s.isRecording = true) (hne : e.key ≠ "Enter") (hnb : e.key ≠ "Backspace")
    (hs : isSuppressedKey e = true) :
    handleKeyDown s e now = s := by
  simp [handleKeyDown, hr, hne, hnb, hs]

theorem handleKeyDown_rec_repeat (s : RecorderState) (e : KeyEvent) (now : Int)
    (hr : s.isRecording = true) (hne : e.key ≠ "Enter") (hnb : e.key ≠ "Backspace")
    (hrep : e.isRepeat = true) :
    handleKeyDown s e now = s := by
  by_cases hs : isSuppressedKey e = true
  · simp [handleKeyDown, hr, hne, hnb, hs]
  · simp [handleKeyDown, hr, hne, hnb, hs, hrep]

theorem handleKeyDown_rec_char (s : RecorderState) (e : KeyEvent) (now : Int)
    (hr : s.isRecording = true) (hne : e.key ≠ "Enter") (hnb : e.key ≠ "Backspace")
    (hs : isSuppressedKey e = false) (hc : isCharKey e = true) (hrep : e.isRepeat = false) :
    handleKeyDown s e now =
      { s with keyDownTimes := bufferPress s.keyDownTimes e.key (now - s.sessionStartTime.getD 0) } := by
  simp [handleKeyDown, hr, hne, hnb, hs, hc, hrep]

theorem handleKeyDown_rec_other (s : RecorderState) (e : KeyEvent) (now : Int)
    (hr : s.isRecording = true) (hne : e.key ≠ "Enter") (hnb : e.key ≠ "Backspace")
    (hs : isSuppressedKey e = false) (hc : isCharKey e = false) :
    handleKeyDown s e now = s := by
  simp [handleKeyDown, hr, hne, hnb, hs, hc]

theorem handleKeyUp_not_rec (s : RecorderState) (e : KeyEvent) (now : Int)
    (hr : s.isRecording = false) : handleKeyUp s e now = s := by
  simp [handleKeyUp, hr]

theorem handleKeyUp_non_char (s : RecorderState) (e : KeyEvent) (now : Int)
    (hg : e.key.length ≠ 1 ∧ e.key ≠ "Space") : handleKeyUp s e now = s := by
  by_cases hr : s.isRecording = false
  · simp [handleKeyUp, hr]
  · simp [handleKeyUp, hr, hg]

theorem handleKeyUp_no_buffer (s : RecorderState) (e : KeyEvent) (now : Int)
    (hb : lookupStr s.keyDownTimes e.key = none) : handleKeyUp s e now = s := by
  by_cases hr : s.isRecording = false
  · simp [handleKeyUp, hr]
  · by_cases hg : e.key.length ≠ 1 ∧ e.key ≠ "Space"
    · simp [handleKeyUp, hr, hg]
    · simp [handleKeyUp, hr, hg, hb]

theorem handleKeyUp_buffered (s : RecorderState) (e : KeyEvent) (now : Int) (t : Int)
    (hr : s.isRecording = true) (hg : e.key.length = 1 ∨ e.key = "Space")
    (hb : lookupStr s.keyDownTimes e.key = some t) :
    handleKeyUp s e now =
      { s with
        keystrokeData := s.keystrokeData ++
          [mkKeystroke e t (now - s.sessionStartTime.getD 0) s.keystrokeData],
        keyDownTimes := deleteKey s.keyDownTimes e.key } := by
  have hg' : ¬ (e.key.length ≠ 1 ∧ e.key ≠ "Space") := by
    rcases hg with h | h
    · intro hcon; exact hcon.1 h
    · intro hcon; exact hcon.2 h
  simp [handleKeyUp, hr, hg', hb]

theorem stopSession_keystrokeData (s : RecorderState) :
    (stopSession s).keystrokeData = s.keystrokeData := by
  unfold stopSession
  split <;> rfl

theorem stopSession_keyDownTimes (s : RecorderState) :
    (stopSession s).keyDownTimes = s.keyDownTimes := by
  unfold stopSession
  split <;> rfl

theorem stopSession_sessionStartTime (s : RecorderState) :
    (stopSession s).sessionStartTime = s.sessionStartTime := by
  unfold stopSession
  split <;> rfl

theorem stopSession_isRecording (s : RecorderState) :
    (stopSession s).isRecording = false := by
  unfold stopSession
  split <;> rfl

theorem stopSession_isCompleted (s : RecorderState) :
    (stopSession s).isCompleted = true := by
  unfold stopSession
  split <;> rfl

theorem stopSession_submitCount_of_nil (s : RecorderState) (h : s.keystrokeData = []) :
    (stopSession s).submitCount = s.submitCount := by
  unfold stopSession
  rw [if_neg (by simp [h])]

/-!
The clock invariant: everything about a reachable recorder state that
depends on the Date.now() samples being non-decreasing.  `clock` is the
latest sample seen so far; all buffered press offsets and all recorded
release offsets are bounded by `clock` minus the session start.
-/

def InvP (s : RecorderState) (clock : Int) : Prop :=
  (s.isRecording = true → ∃ st, s.sessionStartTime = some st)
  ∧ (∀ k t, lookupStr s.keyDownTimes k = some t →
      ∃ st, s.sessionStartTime = some st ∧ t ≤ clock - st)
  ∧ (∀ e ∈ s.keystrokeData, e.pressTime ≤ e.releaseTime ∧ e.dwellTime = e.releaseTime - e.pressTime)
  ∧ releaseSorted s.keystrokeData = true
  ∧ (s.keystrokeData = [] ∨ ∃ st, s.sessionStartTime = some st ∧
      ∀ e ∈ s.keystrokeData, e.releaseTime ≤ clock - st)

theorem invP_mono (s : RecorderState) (t t' : Int) (h : InvP s t) (hle : t ≤ t') :
    InvP s t' := by
  obtain ⟨h1, h2, h3, h4, h5⟩ := h
  refine ⟨h1, fun k v hv => ?_, h3, h4, ?_⟩
  · obtain ⟨st, hst, hb⟩ := h2 k v hv
    exact ⟨st, hst, by omega⟩
  · rcases h5 with h5 | ⟨st, hst, hb⟩
    · exact Or.inl h5
    · exact Or.inr ⟨st, hst, fun e he => by have := hb e he; omega⟩

theorem invP_initial (t : Int) : InvP initialState t := by
  refine ⟨fun h => absurd h (by simp [initialState]), fun k v hv => ?_, by simp [initialState],
    rfl, Or.inl rfl⟩
  simp [initialState, lookupStr] at hv

theorem invP_reset (s : RecorderState) (t : Int) : InvP (resetInternalState s) t := by
  refine ⟨fun h => absurd h (by simp [resetInternalState]), fun k v hv => ?_,
    by simp [resetInternalState], rfl, Or.inl rfl⟩
  simp [resetInternalState, lookupStr] at hv

theorem invP_startSession (s : RecorderState) (now t : Int) (h : InvP s t) (hle : t ≤ now) :
    InvP (startSession s now) now := by
  unfold startSession
  split
  · refine ⟨fun _ => ⟨now, rfl⟩, fun k v hv => ?_, by simp, rfl, Or.inl rfl⟩
    simp [lookupStr] at hv
  · exact invP_mono s t now h hle

theorem invP_stopSession (s : RecorderState) (t : Int) (h : InvP s t) :
    InvP (stopSession s) t := by
  obtain ⟨h1, h2, h3, h4, h5⟩ := h
  refine ⟨fun hcon => absurd hcon (by simp [stopSession_isRecording]), fun k v hv => ?_, ?_, ?_, ?_⟩
  · rw [stopSession_keyDownTimes] at hv
    obtain ⟨st, hst, hb⟩ := h2 k v hv
    exact ⟨st, by rw [stopSession_sessionStartTime]; exact hst, hb⟩
  · rw [stopSession_keystrokeData]
    exact h3
  · rw [stopSession_keystrokeData]
    exact h4
  · rw [stopSession_keystrokeData, stopSession_sessionStartTime]
    exact h5

theorem invP_dropLast (s : RecorderState) (t : Int) (h : InvP s t) :
    InvP { s with keystrokeData := s.keystrokeData.dropLast } t := by
  obtain ⟨h1, h2, h3, h4, h5⟩ := h
  refine ⟨h1, h2, fun e he => h3 e ((List.dropLast_sublist _).subset he),
    releaseSorted_dropLast _ h4, ?_⟩
  rcases h5 with h5 | ⟨st, hst, hb⟩
  · exact Or.inl (by simp [h5])
  · exact Or.inr ⟨st, hst, fun e he => hb e ((List.dropLast_sublist _).subset he)⟩

theorem invP_bufferPress (s : RecorderState) (e : KeyEvent) (now t : Int)
    (h : InvP s t) (hle : t ≤ now) (hr : s.isRecording = true) :
    InvP { s with keyDownTimes := bufferPress s.keyDownTimes e.key (now - s.sessionStartTime.getD 0) } now := by
  obtain ⟨h1, h2, h3, h4, h5⟩ := h
  obtain ⟨st, hst⟩ := h1 hr
  have hgd : s.sessionStartTime.getD 0 = st := by rw [hst]; rfl
  refine ⟨fun _ => ⟨st, hst⟩, fun k v hv => ?_, h3, h4, ?_⟩
  · rcases lookupStr_bufferPress_of _ _ _ _ _ hv with hv' | ⟨hk, hvv⟩
    · obtain ⟨st', hst', hb⟩ := h2 k v hv'
      exact ⟨st', hst', by omega⟩
    · refine ⟨st, hst, ?_⟩
      rw [hvv, hgd]
  · rcases h5 with h5 | ⟨st', hst', hb⟩
    · exact Or.inl h5
    · exact Or.inr ⟨st', hst', fun x hx => by have := hb x hx; omega⟩

theorem invP_keyDown (s : RecorderState) (e : KeyEvent) (now t : Int)
    (h : InvP s t) (hle : t ≤ now) : InvP (handleKeyDown s e now) now := by
  by_cases hr : s.isRecording = true
  · by_cases he : e.key = "Enter"
    · rw [handleKeyDown_rec_enter s e now hr he]
      exact invP_stopSession s now (invP_mono s t now h hle)
    · by_cases hb : e.key = "Backspace"
      · rw [handleKeyDown_rec_backspace s e now hr hb]
        exact invP_dropLast s now (invP_mono s t now h hle)
      · by_cases hs : isSuppressedKey e = true
        · rw [handleKeyDown_rec_suppressed s e now hr he hb hs]
          exact invP_mono s t now h hle
        · by_cases hc : isCharKey e = true
          · by_cases hrep : e.isRepeat = true
            · rw [handleKeyDown_rec_repeat s e now hr he hb hrep]
              exact invP_mono s t now h hle
            · rw [handleKeyDown_rec_char s e now hr he hb (by simpa using hs) hc
                (by simpa using hrep)]
              exact invP_bufferPress s e now t h hle hr
          · rw [handleKeyDown_rec_other s e now hr he hb (by simpa using hs)
              (by simpa using hc)]
            exact invP_mono s t now h hle
  · have hr' : s.isRecording = false := by simpa using hr
    by_cases hc : s.isCompleted = true
    · rw [handleKeyDown_completed s e now hr' hc]
      exact invP_mono s t now h hle
    · rw [handleKeyDown_idle s e now hr' (by simpa using hc)]
      exact invP_startSession s now t h hle

theorem invP_keyUp (s : RecorderState) (e : KeyEvent) (now t : Int)
    (h : InvP s t) (hle : t ≤ now) : InvP (handleKeyUp s e now) now := by
  by_cases hr : s.isRecording = true
  · by_cases hg : e.key.length ≠ 1 ∧ e.key ≠ "Space"
    · rw [handleKeyUp_non_char s e now hg]
      exact invP_mono s t now h hle
    · have hg' : e.key.length = 1 ∨ e.key = "Space" := by
        rcases not_and_or.mp hg with h' | h'
        · exact Or.inl (not_not.mp h')
        · exact Or.inr (not_not.mp h')
      cases hbuf : lookupStr s.keyDownTimes e.key with
      | none =>
        rw [handleKeyUp_no_buffer s e now hbuf]
        exact invP_mono s t now h hle
      | some kdt =>
        rw [handleKeyUp_buffered s e now kdt hr hg' hbuf]
        obtain ⟨h1, h2, h3, h4, h5⟩ := h
        obtain ⟨st, hst⟩ := h1 hr
        have hgd : s.sessionStartTime.getD 0 = st := by rw [hst]; rfl
        obtain ⟨st', hst', hkdt⟩ := h2 e.key kdt hbuf
        have hst'' : st' = st := by
          rw [hst] at hst'
          exact (Option.some.inj hst').symm
        subst hst''
        have hrelbound : ∀ x ∈ s.keystrokeData, x.releaseTime ≤ t - st' := by
          rcases h5 with h5 | ⟨st2, hst2, hb⟩
          · intro x hx
            rw [h5] at hx
            exact absurd hx (by simp)
          · have : st2 = st' := by
              rw [hst] at hst2
              exact (Option.some.inj hst2).symm
            subst this
            exact hb
        have hrel : (mkKeystroke e kdt (now - s.sessionStartTime.getD 0) s.keystrokeData).releaseTime
            = now - st' := by
          rw [hgd]
          rfl
        have hpress : (mkKeystroke e kdt (now - s.sessionStartTime.getD 0) s.keystrokeData).pressTime
            = kdt := rfl
        refine ⟨fun _ => ⟨st', hst⟩, fun k v hv => ?_, fun x hx => ?_, ?_, ?_⟩
        · obtain ⟨st2, hst2, hb⟩ := h2 k v (lookupStr_deleteKey_of _ _ _ _ hv)
          exact ⟨st2, hst2, by omega⟩
        · rcases List.mem_append.mp hx with hx' | hx'
          · exact h3 x hx'
          · have hxx : x = mkKeystroke e kdt (now - s.sessionStartTime.getD 0) s.keystrokeData := by
              simpa using hx'
            subst hxx
            constructor
            · rw [hpress, hrel]
              omega
            · rfl
        · refine releaseSorted_append _ _ h4 (fun x hx => ?_)
          rw [hrel]
          have := hrelbound x hx
          omega
        · refine Or.inr ⟨st', hst, fun x hx => ?_⟩
          rcases List.mem_append.mp hx with hx' | hx'
          · have := hrelbound x hx'
            omega
          · have hxx : x = mkKeystroke e kdt (now - s.sessionStartTime.getD 0) s.keystrokeData := by
              simpa using hx'
            subst hxx
            rw [hrel]
  · rw [handleKeyUp_not_rec s e now (by simpa using hr)]
    exact invP_mono s t now h hle

theorem invP_runFrom : ∀ (l : List RecorderInput) (s : RecorderState) (t : Int),
    InvP s t → monoFrom t l = true → InvP (runRecorderFrom s l) (endClock t l)
  | [], _, _, h, _ => h
  | (.keyDown e now) :: rest, s, t, h, hm => by
    rw [show monoFrom t ((.keyDown e now) :: rest) = (decide (t ≤ now) && monoFrom now rest) from rfl,
      Bool.and_eq_true, decide_eq_true_eq] at hm
    exact invP_runFrom rest _ now (invP_keyDown s e now t h hm.1) hm.2
  | (.keyUp e now) :: rest, s, t, h, hm => by
    rw [show monoFrom t ((.keyUp e now) :: rest) = (decide (t ≤ now) && monoFrom now rest) from rfl,
      Bool.and_eq_true, decide_eq_true_eq] at hm
    exact invP_runFrom rest _ now (invP_keyUp s e now t h hm.1) hm.2
  | .reset :: rest, s, t, h, hm => by
    rw [show monoFrom t (.reset :: rest) = monoFrom t rest from rfl] at hm
    exact invP_runFrom rest _ t (invP_reset s t) hm

theorem invP_run (l : List RecorderInput) (t0 : Int) (hm : monoFrom t0 l = true) :
    InvP (runRecorder l) (endClock t0 l) :=
  invP_runFrom l initialState t0 (invP_initial t0) hm

/-!
Preservation of the flight-time discipline; unlike the clock
invariant this needs no assumption on the Date.now() samples.
-/

theorem flightsOk_keyDown (s : RecorderState) (e : KeyEvent) (now : Int)
    (h : flightsOk s.keystrokeData = true) :
    flightsOk (handleKeyDown s e now).keystrokeData = true := by
  by_cases hr : s.isRecording = true
  · by_cases he : e.key = "Enter"
    · rw [handleKeyDown_rec_enter s e now hr he, stopSession_keystrokeData]
      exact h
    · by_cases hb : e.key = "Backspace"
      · rw [handleKeyDown_rec_backspace s e now hr hb]
        exact flightsOk_dropLast _ h
      · by_cases hs : isSuppressedKey e = true
        · rw [handleKeyDown_rec_suppressed s e now hr he hb hs]
          exact h
        · by_cases hc : isCharKey e = true
          · by_cases hrep : e.isRepeat = true
            · rw [handleKeyDown_rec_repeat s e now hr he hb hrep]
              exact h
            · rw [handleKeyDown_rec_char s e now hr he hb (by simpa using hs) hc
                (by simpa using hrep)]
              exact h
          · rw [handleKeyDown_rec_other s e now hr he hb (by simpa using hs)
              (by simpa using hc)]
            exact h
  · have hr' : s.isRecording = false := by simpa using hr
    by_cases hc : s.isCompleted = true
    · rw [handleKeyDown_completed s e now hr' hc]
      exact h
    · rw [handleKeyDown_idle s e now hr' (by simpa using hc)]
      unfold startSession
      split
      · rfl
      · exact h

theorem flightsOk_keyUp (s : RecorderState) (e : KeyEvent) (now : Int)
    (h : flightsOk s.keystrokeData = true) :
    flightsOk (handleKeyUp s e now).keystrokeData = true := by
  by_cases hr : s.isRecording = true
  · by_cases hg : e.key.length ≠ 1 ∧ e.key ≠ "Space"
    · rw [handleKeyUp_non_char s e now hg]
      exact h
    · have hg' : e.key.length = 1 ∨ e.key = "Space" := by
        rcases not_and_or.mp hg with h' | h'
        · exact Or.inl (not_not.mp h')
        · exact Or.inr (not_not.mp h')
      cases hbuf : lookupStr s.keyDownTimes e.key with
      | none =>
        rw [handleKeyUp_no_buffer s e now hbuf]
        exact h
      | some kdt =>
        rw [handleKeyUp_buffered s e now kdt hr hg' hbuf]
        refine flightsOk_append _ _ h ?_
        cases hgl : s.keystrokeData.getLast? <;> simp [mkKeystroke, hgl]
  · rw [handleKeyUp_not_rec s e now (by simpa using hr)]
    exact h

theorem flightsOk_runFrom : ∀ (l : List RecorderInput) (s : RecorderState),
    flightsOk s.keystrokeData = true → flightsOk (runRecorderFrom s l).keystrokeData = true
  | [], _, h => h
  | (.keyDown e now) :: rest, s, h =>
    flightsOk_runFrom rest _ (flightsOk_keyDown s e now h)
  | (.keyUp e now) :: rest, s, h =>
    flightsOk_runFrom rest _ (flightsOk_keyUp s e now h)
  | .reset :: rest, s, h =>
    flightsOk_runFrom rest _ (by rfl)

/-!
Correctness of the ranking order.
-/

theorem rankedAscending_cons_cons (a b : MatchEntry) (rest : List MatchEntry) :
    rankedAscending (a :: b :: rest) = (matchLe a b && rankedAscending (b :: rest)) := rfl

theorem matchLe_total (a b : MatchEntry) (h : matchLe a b = false) : matchLe b a = true := by
  have h' : ¬ (a.score < b.score ∨ (a.score = b.score ∧ a.userId ≤ b.userId)) := by
    simpa [matchLe] using h
  push_neg at h'
  simp only [matchLe, Bool.or_eq_true, Bool.and_eq_true, decide_eq_true_eq]
  by_cases hab : a.score = b.score
  · exact Or.inr ⟨hab.symm, le_of_lt (h'.2 hab)⟩
  · exact Or.inl (lt_of_le_of_ne h'.1 (fun heq => hab heq.symm))

theorem rankedAscending_insertEntry : ∀ (l : List MatchEntry) (x : MatchEntry),
    rankedAscending l = true → rankedAscending (insertEntry x l) = true
  | [], _, _ => rfl
  | y :: rest, x, hl => by
    by_cases hxy : matchLe x y = true
    · rw [show insertEntry x (y :: rest) = x :: y :: rest by simp [insertEntry, hxy],
        rankedAscending_cons_cons, Bool.and_eq_true]
      exact ⟨hxy, hl⟩
    · have hyx : matchLe y x = true := matchLe_total x y (by simpa using hxy)
      rw [show insertEntry x (y :: rest) = y :: insertEntry x rest by
        simp [insertEntry, hxy]]
      cases rest with
      | nil =>
        rw [show insertEntry x ([] : List MatchEntry) = [x] from rfl,
          rankedAscending_cons_cons, Bool.and_eq_true]
        exact ⟨hyx, rfl⟩
      | cons z rest' =>
        rw [rankedAscending_cons_cons, Bool.and_eq_true] at hl
        have ih := rankedAscending_insertEntry (z :: rest') x hl.2
        by_cases hxz : matchLe x z = true
        · rw [show insertEntry x (z :: rest') = x :: z :: rest' by simp [insertEntry, hxz],
            rankedAscending_cons_cons, Bool.and_eq_true, rankedAscending_cons_cons,
            Bool.and_eq_true]
          exact ⟨hyx, hxz, hl.2⟩
        · rw [show insertEntry x (z :: rest') = z :: insertEntry x rest' by
            simp [insertEntry, hxz]] at ih ⊢
          rw [rankedAscending_cons_cons, Bool.and_eq_true]
          exact ⟨hl.1, ih⟩

theorem rankedAscending_sortEntries : ∀ (l : List MatchEntry),
    rankedAscending (sortEntries l) = true
  | [] => rfl
  | x :: rest => rankedAscending_insertEntry (sortEntries rest) x (rankedAscending_sortEntries rest)

/-!
Concrete fixtures for the closed executions below.
-/

def xEv : KeyEvent := ⟨"x", 88, false, false, false⟩

def aEv : KeyEvent := ⟨"a", 65, false, false, false⟩

def aRepEv : KeyEvent := ⟨"a", 65, true, false, false⟩

def enterEv : KeyEvent := ⟨"Enter", 13, false, false, false⟩

def ctrlEnterEv : KeyEvent := ⟨"Enter", 13, false, false, true⟩

def escEv : KeyEvent := ⟨"Escape", 27, false, false, false⟩

def bspEv : KeyEvent := ⟨"Backspace", 8, false, false, false⟩

/-- A stimulus list that starts a session and records one completed
keystroke (the first key-down only starts the session and is not
buffered, so the event comes from the second key). -/
def recTrace : List RecorderInput :=
  [.keyDown xEv 100, .keyDown aEv 150, .keyUp aEv 250]

/-- A stimulus list in which a press is buffered, Enter completes the
session, and only afterwards the held key is released. -/
def heldKeyTrace : List RecorderInput :=
  [.keyDown xEv 100, .keyDown aEv 150, .keyDown enterEv 200, .keyUp aEv 250]

/-- A stimulus list that merely starts a session: Recording, no
completed events. -/
def startedTrace : List RecorderInput := [.keyDown xEv 100]

/-- A stimulus list that starts a session and buffers one press that
is still open. -/
def bufferedTrace : List RecorderInput := [.keyDown xEv 100, .keyDown aEv 150]

/-!
The claims.
-/

/-- C1: for every verification request, the matches list of the result
is ranked ascending by distance (ties broken by identity order), and
the verified flag is true iff the top-ranked entry's identity equals
the claimed identity and that entry's confidence is at least the
acceptance threshold. -/
theorem verify_ranked_and_verified_iff (claimed : String) (testP : KeyProfile)
    (users : List EnrolledUser) (pen Dref thr : ℚ) :
    rankedAscending (verify claimed testP users pen Dref thr).matrix = true ∧
    ((verify claimed testP users pen Dref thr).verified = true ↔
      ∃ top rest, (verify claimed testP users pen Dref thr).matrix = top :: rest ∧
        top.userId = claimed ∧ thr ≤ top.confidence) := by
  have hm : (verify claimed testP users pen Dref thr).matrix =
      rankCandidates testP users pen Dref := rfl
  have hv : (verify claimed testP users pen Dref thr).verified =
      (match rankCandidates testP users pen Dref with
        | [] => false
        | top :: _ => decide (top.userId = claimed) && decide (thr ≤ top.confidence)) := rfl
  refine ⟨?_, ?_⟩
  · rw [hm]
    unfold rankCandidates
    exact rankedAscending_sortEntries _
  · rw [hm, hv]
    cases hrk : rankCandidates testP users pen Dref with
    | nil =>
      constructor
      · intro hcon
        exact absurd hcon (by simp)
      · rintro ⟨top, rest, heq, -, -⟩
        exact absurd heq (by simp)
    | cons top rest =>
      simp only [Bool.and_eq_true, decide_eq_true_eq]
      constructor
      · rintro ⟨h1, h2⟩
        exact ⟨top, rest, rfl, h1, h2⟩
      · rintro ⟨top', rest', heq, h1, h2⟩
        obtain ⟨rfl, rfl⟩ : top' = top ∧ rest' = rest := by
          constructor <;> injection heq <;> simp [*]
        exact ⟨h1, h2⟩

/-- C2: in every recorder run, the first recorded event has flight
time 0 and every later one's flight time is exactly its press offset
minus the release offset of the event just before it in the stored
list — negative values included, nothing is clamped. -/
theorem recorder_flight_times_exact (l : List RecorderInput) :
    flightsOk (runRecorder l).keystrokeData = true :=
  flightsOk_runFrom l initialState rfl

/-- C3: under a non-decreasing clock the recorded list is ordered by
release time, and the Enter finalization appends nothing: a press that
is buffered but never released contributes no event. -/
theorem recorder_release_order_and_finalize_discards (l : List RecorderInput) (t0 : Int)
    (e : KeyEvent) (now : Int) (hm : monoFrom t0 l = true)
    (hrec : (runRecorder l).isRecording = true) (hent : e.key = "Enter") :
    releaseSorted (runRecorder l).keystrokeData = true ∧
    (handleKeyDown (runRecorder l) e now).keystrokeData = (runRecorder l).keystrokeData := by
  refine ⟨(invP_run l t0 hm).2.2.2.1, ?_⟩
  rw [handleKeyDown_rec_enter _ e now hrec hent, stopSession_keystrokeData]

theorem recorder_release_order_witness :
    monoFrom 0 recTrace = true ∧ (runRecorder recTrace).isRecording = true ∧
    releaseSorted (runRecorder recTrace).keystrokeData = true ∧
    (handleKeyDown (runRecorder recTrace) enterEv 300).keystrokeData =
      (runRecorder recTrace).keystrokeData := by
  have h := recorder_release_order_and_finalize_discards recTrace 0 enterEv 300
    (by decide) (by decide) rfl
  exact ⟨by decide, by decide, h.1, h.2⟩

/-- C4: while Recording, an Enter key-down completes the session
(Recording off, Completed on), and when the completed-event list is
empty at that moment nothing is submitted to the backend. -/
theorem enter_completes_and_empty_submits_nothing (s : RecorderState) (e : KeyEvent)
    (now : Int) (hrec : s.isRecording = true) (hent : e.key = "Enter") :
    (handleKeyDown s e now).isCompleted = true ∧
    (handleKeyDown s e now).isRecording = false ∧
    (s.keystrokeData = [] → (handleKeyDown s e now).submitCount = s.submitCount) := by
  rw [handleKeyDown_rec_enter s e now hrec hent]
  exact ⟨stopSession_isCompleted s, stopSession_isRecording s,
    fun h => stopSession_submitCount_of_nil s h⟩

theorem enter_completes_witness :
    (runRecorder startedTrace).isRecording = true ∧
    (runRecorder startedTrace).keystrokeData = [] ∧
    (handleKeyDown (runRecorder startedTrace) enterEv 200).isCompleted = true ∧
    (handleKeyDown (runRecorder startedTrace) enterEv 200).isRecording = false ∧
    (handleKeyDown (runRecorder startedTrace) enterEv 200).submitCount =
      (runRecorder startedTrace).submitCount := by
  have h := enter_completes_and_empty_submits_nothing (runRecorder startedTrace) enterEv 200
    (by decide) rfl
  exact ⟨by decide, by decide, h.1, h.2.1, h.2.2 (by decide)⟩

/-- C5: while Recording, a Backspace key-down removes exactly the most
recently completed event (a no-op when none exists), touches nothing
else, and the Backspace key generates no event of its own (its key-up
is ignored as well). -/
theorem backspace_removes_last_completed (s : RecorderState) (e : KeyEvent)
    (now now2 : Int) (hrec : s.isRecording = true) (hkey : e.key = "Backspace") :
    handleKeyDown s e now = { s with keystrokeData := s.keystrokeData.dropLast } ∧
    handleKeyUp s e now2 = s := by
  refine ⟨handleKeyDown_rec_backspace s e now hrec hkey, ?_⟩
  apply handleKeyUp_non_char
  rw [hkey]
  exact ⟨by decide, by decide⟩

theorem backspace_removes_last_witness :
    (runRecorder recTrace).isRecording = true ∧
    handleKeyDown (runRecorder recTrace) bspEv 300 =
      { runRecorder recTrace with
        keystrokeData := (runRecorder recTrace).keystrokeData.dropLast } ∧
    handleKeyUp (runRecorder recTrace) bspEv 300 = runRecorder recTrace := by
  have h := backspace_removes_last_completed (runRecorder recTrace) bspEv 300 300
    (by decide) rfl
  exact ⟨by decide, h.1, h.2⟩

/-- C6 counterexample: the claim fails as stated.  In the Idle state a
key-down of Escape starts recording (handleKeyDown calls startSession
before any filtering), and while Recording a key-down of Enter held
with the control modifier completes the session (the Enter test runs
before the modifier-chord suppression test). -/
theorem suppressed_keydown_changes_state_cex :
    initialState.isRecording = false ∧
    (handleKeyDown initialState escEv 100).isRecording = true ∧
    (runRecorder bufferedTrace).isCompleted = false ∧
    (handleKeyDown (runRecorder bufferedTrace) ctrlEnterEv 300).isCompleted = true :=
  ⟨rfl, by decide, by decide, by decide⟩

/-- C6 (amended): while the recorder is Recording or Completed, a
key-down of a suppressed key (function key, Escape, Tab, or a
control/command chord) other than Enter and Backspace leaves the
recorder state unchanged; in Idle, any key-down — suppressed keys
included — fires the Idle-to-Recording transition, and Ctrl/Cmd+Enter
and Ctrl/Cmd+Backspace keep their Enter/Backspace behaviour. -/
theorem suppressed_keydown_frame_effect (s : RecorderState) (e : KeyEvent) (now : Int)
    (hstate : s.isRecording = true ∨ s.isCompleted = true)
    (hsup : isSuppressedKey e = true) (hne : e.key ≠ "Enter") (hnb : e.key ≠ "Backspace") :
    handleKeyDown s e now = s := by
  rcases hstate with hr | hc
  · exact handleKeyDown_rec_suppressed s e now hr hne hnb hsup
  · by_cases hr : s.isRecording = true
    · exact handleKeyDown_rec_suppressed s e now hr hne hnb hsup
    · exact handleKeyDown_completed s e now (by simpa using hr) hc

theorem suppressed_keydown_frame_effect_witness :
    ((runRecorder bufferedTrace).isRecording = true ∨
      (runRecorder bufferedTrace).isCompleted = true) ∧
    isSuppressedKey escEv = true ∧
    handleKeyDown (runRecorder bufferedTrace) escEv 300 = runRecorder bufferedTrace :=
  ⟨Or.inl (by decide), by decide,
    suppressed_keydown_frame_effect (runRecorder bufferedTrace) escEv 300
      (Or.inl (by decide)) (by decide) (by decide) (by decide)⟩

/-- C7 counterexample: the claim fails as stated.  Along heldKeyTrace
the key a is pressed and buffered while Recording, Enter completes the
session before a is released, and the subsequent key-up of a closes no
event at all (the recorded list stays empty) and leaves the buffered
press time for a in place instead of clearing it. -/
theorem held_key_release_after_completion_cex :
    (runRecorder heldKeyTrace).keystrokeData.length = 0 ∧
    lookupStr (runRecorder heldKeyTrace).keyDownTimes ("a") = some 50 :=
  ⟨by decide, by decide⟩

/-- C7 (amended): while the recorder is Recording and a printable
key's press time is buffered, an auto-repeat key-down of that key
leaves the state unchanged — only the first physical press per hold is
timed — and its key-up, provided it arrives while the recorder is
still Recording, closes exactly one event and clears the buffered
press time for that key; a key-up arriving after the session has been
completed is ignored and the buffered press is discarded unused. -/
theorem autorepeat_and_release_close_one_event (s : RecorderState) (e : KeyEvent)
    (now now2 t : Int) (hrec : s.isRecording = true)
    (hchar : e.key.length = 1 ∨ e.key = "Space")
    (hbuf : lookupStr s.keyDownTimes e.key = some t) :
    (e.isRepeat = true → handleKeyDown s e now = s) ∧
    (handleKeyUp s e now2).keystrokeData.length = s.keystrokeData.length + 1 ∧
    lookupStr (handleKeyUp s e now2).keyDownTimes e.key = none := by
  have hne : e.key ≠ "Enter" := by
    rcases hchar with h | h
    · intro heq
      rw [heq] at h
      exact absurd h (by decide)
    · intro heq
      rw [h] at heq
      exact absurd heq (by decide)
  have hnb : e.key ≠ "Backspace" := by
    rcases hchar with h | h
    · intro heq
      rw [heq] at h
      exact absurd h (by decide)
    · intro heq
      rw [h] at heq
      exact absurd heq (by decide)
  refine ⟨fun hrep => handleKeyDown_rec_repeat s e now hrec hne hnb hrep, ?_⟩
  rw [handleKeyUp_buffered s e now2 t hrec hchar hbuf]
  refine ⟨by simp, ?_⟩
  exact lookupStr_deleteKey_self _ _

theorem autorepeat_and_release_witness :
    (runRecorder bufferedTrace).isRecording = true ∧
    lookupStr (runRecorder bufferedTrace).keyDownTimes aRepEv.key = some 50 ∧
    handleKeyDown (runRecorder bufferedTrace) aRepEv 300 = runRecorder bufferedTrace ∧
    (handleKeyUp (runRecorder bufferedTrace) aRepEv 350).keystrokeData.length =
      (runRecorder bufferedTrace).keystrokeData.length + 1 ∧
    lookupStr (handleKeyUp (runRecorder bufferedTrace) aRepEv 350).keyDownTimes aRepEv.key =
      none := by
  have h := autorepeat_and_release_close_one_event (runRecorder bufferedTrace) aRepEv 300 350 50
    (by decide) (Or.inl (by decide)) (by decide)
  exact ⟨by decide, by decide, h.1 rfl, h.2.1, h.2.2⟩

/-- C8: once an attempt is Completed (with Recording off, as
stopSession leaves it), every further key-down and key-up is a strict
no-op on the recorder state — nothing is appended, removed or
buffered — and resuming requires the external resetInternalState,
which produces a fresh Idle attempt with empty event list and buffer. -/
theorem completed_state_is_final (s : RecorderState) (e e2 : KeyEvent) (now now2 : Int)
    (hc : s.isCompleted = true) (hr : s.isRecording = false) :
    handleKeyDown s e now = s ∧ handleKeyUp s e2 now2 = s ∧
    (resetInternalState s).isRecording = false ∧
    (resetInternalState s).isCompleted = false ∧
    (resetInternalState s).keystrokeData = [] ∧
    (resetInternalState s).keyDownTimes = [] :=
  ⟨handleKeyDown_completed s e now hr hc, handleKeyUp_not_rec s e2 now2 hr,
    rfl, rfl, rfl, rfl⟩

theorem completed_state_is_final_witness :
    (runRecorder heldKeyTrace).isCompleted = true ∧
    (runRecorder heldKeyTrace).isRecording = false ∧
    handleKeyDown (runRecorder heldKeyTrace) aEv 300 = runRecorder heldKeyTrace ∧
    handleKeyUp (runRecorder heldKeyTrace) aEv 300 = runRecorder heldKeyTrace ∧
    (resetInternalState (runRecorder heldKeyTrace)).isCompleted = false := by
  have h := completed_state_is_final (runRecorder heldKeyTrace) aEv aEv 300 300
    (by decide) (by decide)
  exact ⟨by decide, by decide, h.1, h.2.1, h.2.2.2.1⟩

/-- C9: in every recorder state, a key-up for a key that has no
buffered press time leaves the state entirely unchanged: no event is
appended and the pending-press buffer is not modified. -/
theorem keyup_without_buffered_press_noop (s : RecorderState) (e : KeyEvent) (now : Int)
    (hb : lookupStr s.keyDownTimes e.key = none) :
    handleKeyUp s e now = s :=
  handleKeyUp_no_buffer s e now hb

theorem keyup_without_buffered_press_noop_witness :
    lookupStr (runRecorder recTrace).keyDownTimes xEv.key = none ∧
    handleKeyUp (runRecorder recTrace) xEv 400 = runRecorder recTrace :=
  ⟨by decide, keyup_without_buffered_press_noop (runRecorder recTrace) xEv 400 (by decide)⟩

/-- C10: assuming the Date.now() samples are non-decreasing, every
recorded event satisfies releaseTime at least pressTime and hence a
non-negative dwellTime: the recorder can never actually produce
negative dwell, because a key's press is always buffered before its
release is processed. -/
theorem recorder_dwell_nonneg (l : List RecorderInput) (t0 : Int)
    (hm : monoFrom t0 l = true) : dwellOk (runRecorder l).keystrokeData = true := by
  have h := (invP_run l t0 hm).2.2.1
  rw [dwellOk, List.all_eq_true]
  intro e he
  rw [Bool.and_eq_true, decide_eq_true_eq, decide_eq_true_eq]
  obtain ⟨h1, h2⟩ := h e he
  exact ⟨h1, by omega⟩

theorem recorder_dwell_nonneg_witness :
    monoFrom 0 recTrace = true ∧ dwellOk (runRecorder recTrace).keystrokeData = true :=
  ⟨by decide, recorder_dwell_nonneg recTrace 0 (by decide)⟩
